import Mathlib

/-!
Verification of the installation-token resolution subsystem and the HTTP
gateway of the github-mcp-server repository.

The Go source is shallowly embedded:

* machine integers (int64, installation IDs, Unix timestamps) are `Int`;
  time is measured in seconds, so a minute is 60 and an hour is 3600;
* Go maps are association lists looked up with `List.find?`;
* the outbound HTTP mint of `createInstallationToken` is parameterised by a
  `MintEnv` describing the observable outcome of the signing step, the HTTP
  round trip, the JSON decode, and the RFC3339 parse of the expiry field;
* RSA-PKCS#1v1.5 signing and SHA-256 hashing are abstract function
  parameters (their mathematics is out of scope); the base64url encoding,
  the JWT assembly, the cache discipline and all string handling are
  embedded concretely, following the source.
-/

namespace GhMcp

/-! ### Go string helpers (strings and strconv packages) -/

/-- Embedding of Go strings.HasPrefix. -/
def hasPre (s pre : String) : Bool :=
  pre.data.isPrefixOf s.data

/-- Embedding of Go strings.TrimPrefix. -/
def trimPre (s pre : String) : String :=
  if hasPre s pre then ⟨s.data.drop pre.data.length⟩ else s

/-- Digit part of Go strconv.ParseInt(s, 10, 64): at least one ASCII digit,
all digits, accumulated in base 10, then the int64 range check. -/
def parseInt64Digits (neg : Bool) (digits : List Char) : Option Int :=
  if digits.isEmpty then none
  else if digits.all Char.isDigit then
    let n : Nat := digits.foldl (fun acc d => acc * 10 + (d.toNat - 48)) 0
    let v : Int := if neg then -(n : Int) else (n : Int)
    if -(2 ^ 63) ≤ v ∧ v ≤ 2 ^ 63 - 1 then some v else none
  else none

/-- Embedding of Go strconv.ParseInt(s, 10, 64): an optional sign (the
characters 45 and 43 are the ASCII minus and plus) followed by at least one
ASCII digit, with an int64 range check; any other input is an error
(`none`). -/
def parseInt64 (s : String) : Option Int :=
  match s.data with
  | [] => none
  | c :: rest =>
    if c = Char.ofNat 45 then parseInt64Digits true rest
    else if c = Char.ofNat 43 then parseInt64Digits false rest
    else parseInt64Digits false (c :: rest)

/-- ASCII character of a decimal digit (48 is the ASCII zero). -/
def digitCharOf (d : Nat) : Char := Char.ofNat (48 + d)

/-- Decimal representation of a natural number, most significant digit
first, as Go strconv.FormatInt produces for nonnegative values. -/
def decimalRepr (n : Nat) : String :=
  if n = 0 then "0" else ⟨((Nat.digits 10 n).reverse).map digitCharOf⟩

/-- Decimal representation of an int64 value, as Go formats integers. -/
def intRepr (i : Int) : String :=
  if i < 0 then "-" ++ decimalRepr i.natAbs else decimalRepr i.toNat

/-! ### base64url without padding (Go base64.RawURLEncoding) -/

/-- The base64url alphabet used by Go base64.RawURLEncoding. -/
def b64Alphabet : List Char :=
  "ABCDEFGHIJKLMNOPQRSTUVWXYZabcdefghijklmnopqrstuvwxyz0123456789-_".data

/-- Character of a 6-bit group (65 is the ASCII capital a, an arbitrary
default that is never reached on 6-bit input). -/
def b64char (n : Nat) : Char := b64Alphabet.getD (n % 64) (Char.ofNat 65)

/-- Unpadded base64url encoding of a byte sequence, grouping three bytes
into four 6-bit characters, exactly as Go RawURLEncoding.EncodeToString. -/
def b64urlEncode : List Nat → List Char
  | [] => []
  | [b1] => [b64char (b1 / 4), b64char (b1 % 4 * 16)]
  | [b1, b2] =>
    [b64char (b1 / 4), b64char (b1 % 4 * 16 + b2 / 16), b64char (b2 % 16 * 4)]
  | b1 :: b2 :: b3 :: rest =>
    b64char (b1 / 4) :: b64char (b1 % 4 * 16 + b2 / 16) ::
      b64char (b2 % 16 * 4 + b3 / 64) :: b64char (b3 % 64) :: b64urlEncode rest

/-- Index of a character in the base64url alphabet. -/
def b64charVal (c : Char) : Nat := b64Alphabet.indexOf c

/-- Unpadded base64url decoding, the inverse of `b64urlEncode` on its
range. -/
def b64urlDecode : List Char → List Nat
  | [] => []
  | [_] => []
  | [c1, c2] => [b64charVal c1 * 4 + b64charVal c2 / 16]
  | [c1, c2, c3] =>
    [b64charVal c1 * 4 + b64charVal c2 / 16,
     b64charVal c2 % 16 * 16 + b64charVal c3 / 4]
  | c1 :: c2 :: c3 :: c4 :: rest =>
    (b64charVal c1 * 4 + b64charVal c2 / 16) ::
      (b64charVal c2 % 16 * 16 + b64charVal c3 / 4) ::
      (b64charVal c3 % 4 * 64 + b64charVal c4) :: b64urlDecode rest

/-- Split a character sequence at every dot, as Go strings.Split(s, ".").
The result always has one more element than the number of dots. -/
def splitDots : List Char → List (List Char)
  | [] => [[]]
  | c :: rest =>
    if c = '.' then [] :: splitDots rest
    else
      match splitDots rest with
      | [] => [[c]]
      | s :: ss => (c :: s) :: ss

/-- Byte sequence of an ASCII string (for the ASCII JSON documents built by
the token store, the UTF-8 bytes are the character codes). -/
def strBytes (s : String) : List Nat := s.data.map Char.toNat

/-- Unpadded base64url encoding returned as a string. -/
def b64url (bs : List Nat) : String := ⟨b64urlEncode bs⟩

/-! ### The token store (internal/ghmcp/tokenstore.go) -/

/-- A credential mapping: MCP token to mapping value (a Go map[string]string). -/
abbrev Mapping : Type := List (String × String)

/-- Go map lookup for the credential mapping. -/
def lookupM (m : Mapping) (k : String) : Option String :=
  (List.find? (fun p => p.1 == k) m).map (fun p => p.2)

/-- A cached installation token with its absolute expiry (tokenstore.go,
struct cachedToken). -/
structure CachedToken where
  token : String
  expiry : Int
deriving DecidableEq

/-- The per-installation token cache, keyed by installation ID. -/
abbrev Cache : Type := List (Int × CachedToken)

/-- Go map lookup for the cache. -/
def cacheFind (c : Cache) (id : Int) : Option CachedToken :=
  (List.find? (fun p => p.1 == id) c).map (fun p => p.2)

/-- Go map assignment for the cache: last write wins, one entry per ID. -/
def cacheInsert (c : Cache) (id : Int) (ct : CachedToken) : Cache :=
  (id, ct) :: List.filter (fun p => !(p.1 == id)) c

/-- The prefix that marks an installation mapping value. -/
def instPre : String := "installation:"

/-- Observable outcome of one call of s.createInstallationToken: the result
of the rsa.SignPKCS1v15 call inside createAppJWT, whether client.Do
succeeded, the HTTP status, the JSON-decoded (token, expires_at) pair
(`none` when the body does not decode), the RFC3339 parse of timestamps,
and the current time (time.Now) in seconds. -/
structure MintEnv where
  signResult : Except Unit (List Nat)
  httpOk : Bool
  status : Int
  body : Option (String × String)
  parseRFC3339 : String → Option Int
  now : Int

/-- Embedding of s.createInstallationToken (tokenstore.go lines 189-238).
On success it returns the decoded token together with the expiry that the
caller will cache: the parsed expires_at, or now + 1 hour when the parse
fails, in both cases minus the 1-minute buffer applied on line 236. -/
def createInstallationToken (env : MintEnv) : Except Unit (String × Int) :=
  match env.signResult with
  | .error e => .error e
  | .ok _ =>
    if env.httpOk = false then .error ()
    else if env.status < 200 ∨ 300 ≤ env.status then .error ()
    else
      match env.body with
      | none => .error ()
      | some (tok, expStr) =>
        let exp : Int :=
          match env.parseRFC3339 expStr with
          | some e => e
          | none => env.now + 3600
        .ok (tok, exp - 60)

/-- A mint environment whose expiry field does not parse but whose body
decodes with a token: the mint succeeds with the fallback expiry. -/
def envUnparsableExpiry : MintEnv :=
  ⟨.ok [], true, 200, some ("mintedTok", "not-a-timestamp"), fun _ => none, 0⟩

/-- A mint environment whose HTTP exchange returns status 500. -/
def envHttpFail : MintEnv := ⟨.ok [], true, 500, some ("t", "x"), fun _ => none, 0⟩

/-- A mint environment whose expiry field parses. -/
def envParsedExpiry : MintEnv :=
  ⟨.ok [], true, 201, some ("tokP", "2026-01-01T00:00:00Z"),
    fun s => if s = "2026-01-01T00:00:00Z" then some 1767225600 else none, 0⟩

/-- Result of one GetGitHubToken call: the returned (token, found) pair, the
cache afterwards, and the installation IDs for which a mint (an outbound
network exchange) was attempted. -/
structure ResolveOutcome where
  token : String
  found : Bool
  cache : Cache
  mintCalls : List Int
deriving DecidableEq

/-- The mint path of GetGitHubToken (tokenstore.go lines 171-185): attempt
to mint; on error return ("", false) leaving the cache unchanged; on
success cache the token under the installation ID and return it. -/
def mintPath (cache : Cache) (mint : Int → Except Unit (String × Int)) (id : Int) :
    ResolveOutcome :=
  match mint id with
  | .error _ => ⟨"", false, cache, [id]⟩
  | .ok (tok, exp) => ⟨tok, true, cacheInsert cache id ⟨tok, exp⟩, [id]⟩

/-- Cache consultation for a parsed installation ID (tokenstore.go lines
160-170): a cached entry is reused only when time.Until(expiry) is strictly
greater than one minute; otherwise the mint path runs. -/
def resolveInstallation (cache : Cache) (now : Int)
    (mint : Int → Except Unit (String × Int)) (id : Int) : ResolveOutcome :=
  match cacheFind cache id with
  | some ct =>
    if 60 < ct.expiry - now then ⟨ct.token, true, cache, []⟩
    else mintPath cache mint id
  | none => mintPath cache mint id

/-- Embedding of InstallationTokenStore.GetGitHubToken (tokenstore.go lines
146-187), with the outbound mint abstracted as the function `mint`. -/
def GetGitHubToken (mapping : Mapping) (cache : Cache) (now : Int)
    (mint : Int → Except Unit (String × Int)) (mcpToken : String) : ResolveOutcome :=
  match lookupM mapping mcpToken with
  | none => ⟨"", false, cache, []⟩
  | some v =>
    if hasPre v instPre then
      match parseInt64 (trimPre v instPre) with
      | none => ⟨"", false, cache, []⟩
      | some id => resolveInstallation cache now mint id
    else ⟨v, true, cache, []⟩

/-! ### The app JWT (tokenstore.go, createAppJWT) -/

/-- The fixed JWT header document of createAppJWT. -/
def jwtHeaderJson : String := "\x7b\"alg\":\"RS256\",\"typ\":\"JWT\"\x7d"

/-- The claims carried in the app JWT payload. -/
structure JwtClaims where
  iat : Int
  exp : Int
  iss : Int

/-- The claims built by createAppJWT: issued now, expiring in 9 minutes,
issued by the configured app ID. -/
def jwtClaims (now appID : Int) : JwtClaims := ⟨now, now + 540, appID⟩

/-- JSON document of the payload claims. Go json.Marshal of a map emits the
keys in sorted order: exp, iat, iss. -/
def payloadJsonOf (c : JwtClaims) : String :=
  "\x7b\"exp\":" ++ intRepr c.exp ++ ",\"iat\":" ++ intRepr c.iat ++
    ",\"iss\":" ++ intRepr c.iss ++ "\x7d"

/-- Embedding of s.createAppJWT (tokenstore.go lines 240-267): base64url
header and payload joined with a dot, then the signature (an abstract
function standing for rsa.SignPKCS1v15 with the store key) over the hash
(an abstract function standing for SHA-256) of the unsigned part, appended
base64url-encoded after a second dot. -/
def createAppJWT (now appID : Int) (hash : String → List Nat)
    (sign : List Nat → Except Unit (List Nat)) : Except Unit String :=
  let header := b64url (strBytes jwtHeaderJson)
  let payload := b64url (strBytes (payloadJsonOf (jwtClaims now appID)))
  let unsigned := header ++ "." ++ payload
  match sign (hash unsigned) with
  | .error e => .error e
  | .ok sig => .ok (unsigned ++ "." ++ b64url sig)

/-! ### Startup configuration (tokenstore.go NewEnvTokenStoreFromEnv,
cmd/mini-mcp-http/main.go, cmd/mini-mcp-http config.go) -/

/-- Embedding of ghmcp.NewEnvTokenStoreFromEnv (tokenstore.go lines 39-50),
with `v` the value of the environment variable (the empty string when it is
unset) and `parse` the JSON unmarshal into a map[string]string. An empty
value yields an empty mapping with no error. -/
def NewEnvTokenStoreFromEnv (v : String) (parse : String → Option Mapping) :
    Except String Mapping :=
  if v = "" then .ok []
  else
    match parse v with
    | some m => .ok m
    | none => .error "failed to parse JSON"

/-- Startup outcome of the mini-mcp-http process with respect to the token
map. -/
inductive StartupResult where
  | exitNonZero : StartupResult
  | started : Mapping → StartupResult
deriving DecidableEq

/-- Embedding of the token-map loading in main (cmd/mini-mcp-http/main.go
lines 133-141): os.Exit(2) exactly when NewEnvTokenStoreFromEnv errors,
otherwise the server proceeds with the returned mapping. -/
def mainLoadTokenMap (v : String) (parse : String → Option Mapping) : StartupResult :=
  match NewEnvTokenStoreFromEnv v parse with
  | .error _ => .exitNonZero
  | .ok m => .started m

/-- Embedding of the GITHUB_MCP_TOKEN_MAP portion of
Config.validateRequiredEnvVars (cmd/mini-mcp-http config.go): an unset or
empty variable, undecodable JSON, and an empty decoded mapping are all
validation errors. This function exists in the repository and is covered by
its property tests, but main never calls it. -/
def validateRequiredEnvVars (v : String) (parse : String → Option Mapping) :
    Except String Mapping :=
  if v = "" then .error "required environment variable is not set"
  else
    match parse v with
    | none => .error "invalid JSON format"
    | some m => if m.isEmpty then .error "contains empty mapping" else .ok m

/-! ### The HTTP gateway (cmd/mini-mcp-http/main.go) -/

/-- Go unicode.ToLower restricted to the characters that can compare equal
to the lowercase scheme word (ASCII uppercase maps down; every other
relevant character is fixed). -/
def goToLower (c : Char) : Char :=
  if Char.ofNat 65 ≤ c ∧ c ≤ Char.ofNat 90 then Char.ofNat (c.toNat + 32) else c

/-- Embedding of Go strings.SplitN(s, " ", 2): `none` when there is no
space (SplitN returns a single part), otherwise the text before and after
the first space. -/
def splitFirstSpace : List Char → Option (List Char × List Char)
  | [] => none
  | c :: rest =>
    if c = ' ' then some ([], rest)
    else
      match splitFirstSpace rest with
      | none => none
      | some (a, b) => some (c :: a, b)

/-- Go unicode.IsSpace over the white space code points (ASCII controls 9
to 13, space, next line, no-break space, ogham space mark, the Unicode
general punctuation spaces, and the ideographic space). -/
def goIsSpace (c : Char) : Bool :=
  c == ' ' || c == Char.ofNat 9 || c == Char.ofNat 10 || c == Char.ofNat 11 ||
  c == Char.ofNat 12 || c == Char.ofNat 13 || c.toNat == 133 || c.toNat == 160 ||
  c.toNat == 5760 || (8192 ≤ c.toNat && c.toNat ≤ 8202) || c.toNat == 8232 ||
  c.toNat == 8233 || c.toNat == 8239 || c.toNat == 8287 || c.toNat == 12288

/-- Embedding of Go strings.TrimSpace. -/
def goTrimSpace (s : String) : String :=
  ⟨((s.data.dropWhile goIsSpace).reverse.dropWhile goIsSpace).reverse⟩

/-- Embedding of extractBearer (cmd/mini-mcp-http/main.go lines 21-33):
split at the first space, require the scheme word to lowercase to
"bearer", and trim surrounding white space from the rest; every failure
yields the empty string. -/
def extractBearer (auth : String) : String :=
  if auth = "" then ""
  else
    match splitFirstSpace auth.data with
    | none => ""
    | some (scheme, rest) =>
      if scheme.map goToLower = "bearer".data then goTrimSpace ⟨rest⟩ else ""

/-- The observable responses of the /mcp handler (cmd/mini-mcp-http/main.go):
405 method_not_allowed, 401 missing_authorization, 401 invalid_token, or
the streaming connection established with the resolved GitHub token. -/
inductive McpResponse where
  | methodNotAllowed : McpResponse
  | missingAuth : McpResponse
  | invalidToken : McpResponse
  | ok : String → McpResponse
deriving DecidableEq

/-- Embedding of the authentication part of the /mcp handler
(cmd/mini-mcp-http/main.go lines 247-321), with `resolve` the token store
lookup; the second component records every token passed to the store. -/
def handleMcp (method auth : String) (resolve : String → Option String) :
    McpResponse × List String :=
  if method ≠ "POST" then (.methodNotAllowed, [])
  else
    let t := extractBearer auth
    if t = "" then (.missingAuth, [])
    else
      match resolve t with
      | some gh => (.ok gh, [t])
      | none => (.invalidToken, [t])

/-! ### Request context helpers (tokenstore.go lines 269-287) -/

/-- Context keys: the typed key ctxKeyGitHubToken, or any other key. -/
inductive CtxKey where
  | githubToken : CtxKey
  | extra : String → CtxKey
deriving DecidableEq

/-- Context values: a string, or a value of any other dynamic type (on
which the type assertion in GitHubTokenFromContext fails). -/
inductive CtxVal where
  | str : String → CtxVal
  | nonString : Nat → CtxVal
deriving DecidableEq

/-- A Go context.Context modelled as its key-value chain, most recent
first. -/
abbrev GoContext := List (CtxKey × CtxVal)

/-- Embedding of ctx.Value: the most recently stored value for a key. -/
def ctxValue (ctx : GoContext) (k : CtxKey) : Option CtxVal :=
  (List.find? (fun p => p.1 == k) ctx).map (fun p => p.2)

/-- Embedding of ghmcp.ContextWithGitHubToken. -/
def ContextWithGitHubToken (ctx : GoContext) (t : String) : GoContext :=
  (CtxKey.githubToken, CtxVal.str t) :: ctx

/-- Embedding of ghmcp.GitHubTokenFromContext: nil value gives ("", false),
and a failed string type assertion also gives ("", false). -/
def GitHubTokenFromContext (ctx : GoContext) : String × Bool :=
  match ctxValue ctx CtxKey.githubToken with
  | none => ("", false)
  | some (CtxVal.str s) => (s, true)
  | some (CtxVal.nonString _) => ("", false)


/-- A concrete hash function used to instantiate witnesses. -/
def hashW : String → List Nat := fun _ => []

/-- A concrete signer used to instantiate witnesses. -/
def signW : List Nat → Except Unit (List Nat) := fun _ => .ok [1, 2]

/-! ## Supporting lemmas -/

lemma digits_lt_ten (n : Nat) : ∀ d ∈ Nat.digits 10 n, d < 10 :=
  fun _ hd => Nat.digits_lt_base (by norm_num) hd

lemma digitCharOf_isDigit {d : Nat} (h : d < 10) : (digitCharOf d).isDigit = true := by
  interval_cases d <;> decide

lemma digitCharOf_toNat {d : Nat} (h : d < 10) : (digitCharOf d).toNat = 48 + d := by
  interval_cases d <;> decide

lemma digitCharOf_ne_neg {d : Nat} (h : d < 10) : digitCharOf d ≠ Char.ofNat 45 := by
  interval_cases d <;> decide

lemma digitCharOf_ne_plus {d : Nat} (h : d < 10) : digitCharOf d ≠ Char.ofNat 43 := by
  interval_cases d <;> decide

lemma foldl_base10 (L : List Nat) :
    List.foldl (fun acc d => acc * 10 + d) 0 L.reverse = Nat.ofDigits 10 L := by
  induction L with
  | nil => simp [Nat.ofDigits]
  | cons d L ih =>
    simp [List.reverse_cons, List.foldl_append, ih, Nat.ofDigits_cons]
    omega

lemma foldl_map_digitCharOf (L : List Nat) (h : ∀ d ∈ L, d < 10) (acc : Nat) :
    List.foldl (fun a c => a * 10 + (c.toNat - 48)) acc (L.map digitCharOf) =
    List.foldl (fun a d => a * 10 + d) acc L := by
  induction L generalizing acc with
  | nil => simp
  | cons d L ih =>
    have hd : d < 10 := h d (by simp)
    have hrest : ∀ x ∈ L, x < 10 := fun x hx => h x (by simp [hx])
    simp only [List.map_cons, List.foldl_cons, digitCharOf_toNat hd]
    have heq : acc * 10 + (48 + d - 48) = acc * 10 + d := by omega
    rw [heq, ih hrest]

/-- The decimal representation of a positive int64 value parses back to
exactly that integer under strconv.ParseInt semantics. -/
theorem parseInt64_decimalRepr (n : Nat) (h0 : 0 < n) (hr : (n : Int) ≤ 2 ^ 63 - 1) :
    parseInt64 (decimalRepr n) = some (n : Int) := by
  have hne : n ≠ 0 := h0.ne'
  have hlt := digits_lt_ten n
  unfold decimalRepr
  rw [if_neg hne]
  have hBnil : (Nat.digits 10 n).reverse ≠ [] := by
    simp [Nat.digits_ne_nil_iff_ne_zero, hne]
  have hBlt : ∀ d ∈ (Nat.digits 10 n).reverse, d < 10 := by
    intro d hd
    exact hlt d (List.mem_reverse.mp hd)
  obtain ⟨d0, B, hB⟩ := List.exists_cons_of_ne_nil hBnil
  have hd0 : d0 < 10 := hBlt d0 (by rw [hB]; simp)
  have hdata : ((Nat.digits 10 n).reverse).map digitCharOf =
      digitCharOf d0 :: B.map digitCharOf := by rw [hB]; simp
  simp only [parseInt64, hdata]
  rw [if_neg (digitCharOf_ne_neg hd0), if_neg (digitCharOf_ne_plus hd0), ← hdata]
  have hne2 : (((Nat.digits 10 n).reverse).map digitCharOf).isEmpty = false := by
    simp [List.isEmpty_iff, hB]
  have hall : (((Nat.digits 10 n).reverse).map digitCharOf).all Char.isDigit = true := by
    rw [List.all_eq_true]
    intro c hc
    obtain ⟨d, hd, rfl⟩ := List.mem_map.mp hc
    exact digitCharOf_isDigit (hBlt d hd)
  have hfold : (((Nat.digits 10 n).reverse).map digitCharOf).foldl
      (fun a c => a * 10 + (c.toNat - 48)) 0 = n := by
    rw [foldl_map_digitCharOf _ hBlt, foldl_base10, Nat.ofDigits_digits]
  have hrange : -((2 : Int) ^ 63) ≤ (n : Int) ∧ (n : Int) ≤ 2 ^ 63 - 1 :=
    ⟨le_trans (by norm_num) (Int.natCast_nonneg n), hr⟩
  simp only [parseInt64Digits, hne2, hall, hfold, Bool.false_eq_true, if_false, if_true]
  rw [if_pos hrange]


lemma b64Alphabet_getD_ne_dot : ∀ m : Nat, m < 64 →
    b64Alphabet.getD m (Char.ofNat 65) ≠ '.' := by decide

lemma b64char_ne_dot (n : Nat) : b64char n ≠ '.' := by
  unfold b64char
  exact b64Alphabet_getD_ne_dot (n % 64) (Nat.mod_lt _ (by norm_num))

lemma b64urlEncode_no_dot (bs : List Nat) : ∀ c ∈ b64urlEncode bs, c ≠ '.' := by
  induction bs using b64urlEncode.induct with
  | case1 =>
    intro c hc
    simp [b64urlEncode] at hc
  | case2 b1 =>
    intro c hc
    simp [b64urlEncode] at hc
    rcases hc with h | h <;> exact h ▸ b64char_ne_dot _
  | case3 b1 b2 =>
    intro c hc
    simp [b64urlEncode] at hc
    rcases hc with h | h | h <;> exact h ▸ b64char_ne_dot _
  | case4 b1 b2 b3 rest ih =>
    intro c hc
    simp only [b64urlEncode, List.mem_cons] at hc
    rcases hc with h | h | h | h | h
    · exact h ▸ b64char_ne_dot _
    · exact h ▸ b64char_ne_dot _
    · exact h ▸ b64char_ne_dot _
    · exact h ▸ b64char_ne_dot _
    · exact ih c h

lemma splitDots_no_dot (l : List Char) (h : ∀ c ∈ l, c ≠ '.') :
    splitDots l = [l] := by
  induction l with
  | nil => rfl
  | cons c rest ih =>
    have hc : c ≠ '.' := h c (by simp)
    have hrest : ∀ x ∈ rest, x ≠ '.' := fun x hx => h x (by simp [hx])
    simp only [splitDots, if_neg hc, ih hrest]

lemma splitDots_dot_append (a rest : List Char) (h : ∀ c ∈ a, c ≠ '.') :
    splitDots (a ++ '.' :: rest) = a :: splitDots rest := by
  induction a with
  | nil => simp [splitDots]
  | cons c a ih =>
    have hc : c ≠ '.' := h c (by simp)
    have ha : ∀ x ∈ a, x ≠ '.' := fun x hx => h x (by simp [hx])
    simp only [List.cons_append, splitDots, if_neg hc, List.append_eq]
    rw [ih ha]

lemma b64charVal_b64char : ∀ n : Nat, n < 64 → b64charVal (b64char n) = n := by decide

lemma b64urlDecode_encode (bs : List Nat) (h : ∀ b ∈ bs, b < 256) :
    b64urlDecode (b64urlEncode bs) = bs := by
  induction bs using b64urlEncode.induct with
  | case1 => rfl
  | case2 b1 =>
    have hb1 : b1 < 256 := h b1 (by simp)
    have e1 := b64charVal_b64char (b1 / 4) (by omega)
    have e2 := b64charVal_b64char (b1 % 4 * 16) (by omega)
    simp only [b64urlEncode, b64urlDecode, e1, e2]
    congr 1
    omega
  | case3 b1 b2 =>
    have hb1 : b1 < 256 := h b1 (by simp)
    have hb2 : b2 < 256 := h b2 (by simp)
    have e1 := b64charVal_b64char (b1 / 4) (by omega)
    have e2 := b64charVal_b64char (b1 % 4 * 16 + b2 / 16) (by omega)
    have e3 := b64charVal_b64char (b2 % 16 * 4) (by omega)
    simp only [b64urlEncode, b64urlDecode, e1, e2, e3]
    congr 1
    · omega
    · congr 1
      omega
  | case4 b1 b2 b3 rest ih =>
    have hb1 : b1 < 256 := h b1 (by simp)
    have hb2 : b2 < 256 := h b2 (by simp)
    have hb3 : b3 < 256 := h b3 (by simp)
    have hrest : ∀ b ∈ rest, b < 256 := fun b hb => h b (by simp [hb])
    have e1 := b64charVal_b64char (b1 / 4) (by omega)
    have e2 := b64charVal_b64char (b1 % 4 * 16 + b2 / 16) (by omega)
    have e3 := b64charVal_b64char (b2 % 16 * 4 + b3 / 64) (by omega)
    have e4 := b64charVal_b64char (b3 % 64) (by omega)
    simp only [b64urlEncode, b64urlDecode, e1, e2, e3, e4, ih hrest]
    congr 1
    · omega
    · congr 1
      · omega
      · congr 1
        omega

lemma ascii_decimalRepr (n : Nat) : ∀ c ∈ (decimalRepr n).data, c.toNat < 256 := by
  unfold decimalRepr
  by_cases h : n = 0
  · rw [if_pos h]
    decide
  · rw [if_neg h]
    intro c hc
    obtain ⟨d, hd, rfl⟩ := List.mem_map.mp hc
    have hlt : d < 10 := digits_lt_ten n d (List.mem_reverse.mp hd)
    rw [digitCharOf_toNat hlt]
    omega

lemma ascii_intRepr (i : Int) : ∀ c ∈ (intRepr i).data, c.toNat < 256 := by
  unfold intRepr
  by_cases h : i < 0
  · rw [if_pos h]
    intro c hc
    rw [String.data_append] at hc
    rcases List.mem_append.mp hc with h1 | h1
    · have hdash : c = '-' := by simpa using h1
      subst hdash
      decide
    · exact ascii_decimalRepr _ c h1
  · rw [if_neg h]
    exact ascii_decimalRepr _

lemma ascii_payload (cl : JwtClaims) : ∀ b ∈ strBytes (payloadJsonOf cl), b < 256 := by
  intro b hb
  unfold strBytes at hb
  obtain ⟨c, hc, rfl⟩ := List.mem_map.mp hb
  unfold payloadJsonOf at hc
  simp only [String.data_append, List.mem_append] at hc
  rcases hc with ((((((h | h) | h) | h) | h) | h) | h)
  · exact (by decide : ∀ c ∈ ("\x7b\"exp\":" : String).data, c.toNat < 256) c h
  · exact ascii_intRepr _ c h
  · exact (by decide : ∀ c ∈ (",\"iat\":" : String).data, c.toNat < 256) c h
  · exact ascii_intRepr _ c h
  · exact (by decide : ∀ c ∈ (",\"iss\":" : String).data, c.toNat < 256) c h
  · exact ascii_intRepr _ c h
  · exact (by decide : ∀ c ∈ ("\x7d" : String).data, c.toNat < 256) c h

/-! ## Claim theorems -/

/-- Claim C7: a caller key absent from the credential mapping resolves to
("", false) immediately, with no mint attempt and the cache untouched. -/
theorem GetGitHubToken_unmapped (mapping : Mapping) (cache : Cache) (now : Int)
    (mint : Int → Except Unit (String × Int)) (k : String)
    (h : lookupM mapping k = none) :
    GetGitHubToken mapping cache now mint k = ⟨"", false, cache, []⟩ := by
  simp [GetGitHubToken, h]

/-- Witness for C7 at a concrete unmapped key. -/
theorem GetGitHubToken_unmapped_witness :
    lookupM [("a", "b")] "z" = none ∧
    GetGitHubToken [("a", "b")] [] 0 (fun _ => .error ()) "z" = ⟨"", false, [], []⟩ :=
  ⟨by decide, GetGitHubToken_unmapped _ _ _ _ _ (by decide)⟩

/-- Claim C8: a mapping value without the installation prefix is returned
verbatim with found = true, with no mint attempt and the cache neither
consulted nor modified, whatever the cache holds. -/
theorem GetGitHubToken_direct (mapping : Mapping) (cache : Cache) (now : Int)
    (mint : Int → Except Unit (String × Int)) (k v : String)
    (hv : lookupM mapping k = some v) (hp : hasPre v instPre = false) :
    GetGitHubToken mapping cache now mint k = ⟨v, true, cache, []⟩ := by
  simp [GetGitHubToken, hv, hp]

/-- Witness for C8 at a concrete direct mapping and a nonempty cache. -/
theorem GetGitHubToken_direct_witness :
    lookupM [("tokA", "direct-pat-value")] "tokA" = some "direct-pat-value" ∧
    hasPre "direct-pat-value" instPre = false ∧
    GetGitHubToken [("tokA", "direct-pat-value")] [((9 : Int), ⟨"x", 50⟩)] 0
      (fun _ => .error ()) "tokA" =
      ⟨"direct-pat-value", true, [((9 : Int), ⟨"x", 50⟩)], []⟩ :=
  ⟨by decide, by decide, GetGitHubToken_direct _ _ _ _ _ _ (by decide) (by decide)⟩

/-- Claim C2: for an installation mapping, a cache entry whose expiry is
strictly more than one minute away is returned verbatim with no mint and no
cache change; a missing or stale (≤ one minute) entry never yields the
cached credential and instead runs the mint path. -/
theorem GetGitHubToken_cache_discipline (mapping : Mapping) (cache : Cache) (now : Int)
    (mint : Int → Except Unit (String × Int)) (k v : String) (id : Int)
    (hv : lookupM mapping k = some v)
    (hp : hasPre v instPre = true)
    (hid : parseInt64 (trimPre v instPre) = some id) :
    (∀ ct, cacheFind cache id = some ct → 60 < ct.expiry - now →
      GetGitHubToken mapping cache now mint k = ⟨ct.token, true, cache, []⟩) ∧
    ((cacheFind cache id = none ∨
      ∃ ct, cacheFind cache id = some ct ∧ ct.expiry - now ≤ 60) →
      GetGitHubToken mapping cache now mint k = mintPath cache mint id) := by
  have hg : GetGitHubToken mapping cache now mint k = resolveInstallation cache now mint id := by
    simp [GetGitHubToken, hv, hp, hid]
  constructor
  · intro ct hct hfresh
    rw [hg]
    simp [resolveInstallation, hct, hfresh]
  · rintro (hmiss | ⟨ct, hct, hstale⟩)
    · rw [hg]
      simp [resolveInstallation, hmiss]
    · rw [hg]
      have hnot : ¬ (60 < ct.expiry - now) := by omega
      simp [resolveInstallation, hct, hnot]

/-- Witness for C2 at a concrete fresh cache entry. -/
theorem GetGitHubToken_cache_discipline_witness :
    lookupM [("k", "installation:7")] "k" = some "installation:7" ∧
    hasPre "installation:7" instPre = true ∧
    parseInt64 (trimPre "installation:7" instPre) = some 7 ∧
    cacheFind [((7 : Int), ⟨"tokC", 1000⟩)] 7 = some ⟨"tokC", 1000⟩ ∧
    (60 : Int) < 1000 - 0 ∧
    GetGitHubToken [("k", "installation:7")] [((7 : Int), ⟨"tokC", 1000⟩)] 0
      (fun _ => .error ()) "k" = ⟨"tokC", true, [((7 : Int), ⟨"tokC", 1000⟩)], []⟩ :=
  ⟨by decide, by decide, by decide, by decide, by decide,
    (GetGitHubToken_cache_discipline [("k", "installation:7")]
        [((7 : Int), ⟨"tokC", 1000⟩)] 0 (fun _ => .error ()) "k" "installation:7" 7
        (by decide) (by decide) (by decide)).1
      ⟨"tokC", 1000⟩ (by decide) (by decide)⟩

/-- Claim C1 counterexample: the suffix "0" is non-positive yet parses, and
GetGitHubToken serves it from the cache with found = true instead of
failing; the code never checks positivity, only parseability. -/
theorem GetGitHubToken_nonpositive_cex :
    parseInt64 (trimPre "installation:0" instPre) = some 0 ∧ ¬ (0 : Int) > 0 ∧
    GetGitHubToken [("k", "installation:0")] [((0 : Int), ⟨"cachedTok", 1000⟩)] 0
      (fun _ => .error ()) "k" =
      ⟨"cachedTok", true, [((0 : Int), ⟨"cachedTok", 1000⟩)], []⟩ := by
  refine ⟨by decide, by decide, ?_⟩
  decide

/-- Claim C1 amended: a suffix that strconv.ParseInt rejects resolves to
("", false) with no mint and no cache change, and is never treated as a
direct token; a suffix that parses (any int64, including zero and negative
values) proceeds to the cache-or-mint path for exactly that ID; the decimal
representation of a positive int64 parses to exactly that integer. -/
theorem GetGitHubToken_installation_suffix (mapping : Mapping) (cache : Cache)
    (now : Int) (mint : Int → Except Unit (String × Int)) (k v : String)
    (hv : lookupM mapping k = some v)
    (hp : hasPre v instPre = true) :
    (parseInt64 (trimPre v instPre) = none →
      GetGitHubToken mapping cache now mint k = ⟨"", false, cache, []⟩) ∧
    (∀ id, parseInt64 (trimPre v instPre) = some id →
      GetGitHubToken mapping cache now mint k = resolveInstallation cache now mint id) ∧
    (∀ n : Nat, 0 < n → (n : Int) ≤ 2 ^ 63 - 1 →
      parseInt64 (decimalRepr n) = some (n : Int)) := by
  refine ⟨?_, ?_, ?_⟩
  · intro hnone
    simp [GetGitHubToken, hv, hp, hnone]
  · intro id hid
    simp [GetGitHubToken, hv, hp, hid]
  · intro n h0 hr
    exact parseInt64_decimalRepr n h0 hr

/-- Witness for the amended C1 at a concrete non-numeric suffix. -/
theorem GetGitHubToken_installation_suffix_witness :
    lookupM [("k", "installation:abc")] "k" = some "installation:abc" ∧
    hasPre "installation:abc" instPre = true ∧
    parseInt64 (trimPre "installation:abc" instPre) = none ∧
    GetGitHubToken [("k", "installation:abc")] [] 0 (fun _ => .error ()) "k" =
      ⟨"", false, [], []⟩ :=
  ⟨by decide, by decide, by decide,
    (GetGitHubToken_installation_suffix [("k", "installation:abc")] [] 0
        (fun _ => .error ()) "k" "installation:abc" (by decide) (by decide)).1
      (by decide)⟩

/-- Claim C3 counterexample: the claim lists an unparsable expiry among the
mint failures, but a response whose body decodes with a token and an
expiry that fails the RFC3339 parse succeeds (fallback expiry) and
GetGitHubToken returns the minted token with found = true and caches it. -/
theorem GetGitHubToken_unparsable_expiry_cex :
    envUnparsableExpiry.parseRFC3339 "not-a-timestamp" = none ∧
    createInstallationToken envUnparsableExpiry = .ok ("mintedTok", 3540) ∧
    GetGitHubToken [("k", "installation:5")] [] 0
      (fun _ => createInstallationToken envUnparsableExpiry) "k" =
      ⟨"mintedTok", true, [((5 : Int), ⟨"mintedTok", 3540⟩)], [5]⟩ :=
  ⟨rfl, rfl, by decide⟩

/-- Claim C3 amended: when the mint fails — and it fails exactly on a
signing error, a network error, a non-2xx status, or an undecodable body,
an unparsable expiry alone being a fallback rather than a failure —
GetGitHubToken returns ("", false) and the cache is left unchanged, whether
the mint was triggered by an absent cache entry or by a stale one (within
the 1-minute renewal margin); in the stale case the stale credential is not
returned and not evicted. -/
theorem GetGitHubToken_mint_failure (mapping : Mapping) (cache : Cache) (now : Int)
    (env : MintEnv) (k v : String) (id : Int)
    (hv : lookupM mapping k = some v)
    (hp : hasPre v instPre = true)
    (hid : parseInt64 (trimPre v instPre) = some id)
    (hmiss : cacheFind cache id = none ∨
      ∃ ct, cacheFind cache id = some ct ∧ ct.expiry - now ≤ 60)
    (hfail : createInstallationToken env = .error ()) :
    GetGitHubToken mapping cache now (fun _ => createInstallationToken env) k =
      ⟨"", false, cache, [id]⟩ ∧
    (createInstallationToken env = .error () ↔
      env.signResult = .error () ∨ env.httpOk = false ∨
      env.status < 200 ∨ 300 ≤ env.status ∨ env.body = none) := by
  constructor
  · rcases hmiss with hnone | ⟨ct, hct, hstale⟩
    · simp [GetGitHubToken, hv, hp, hid, resolveInstallation, hnone, mintPath, hfail]
    · have hnot : ¬ (60 < ct.expiry - now) := by omega
      simp [GetGitHubToken, hv, hp, hid, resolveInstallation, hct, hnot, mintPath, hfail]
  · rcases env with ⟨sr, ho, st, bd, pr, nw⟩
    cases sr with
    | error e =>
      cases e
      simp [createInstallationToken]
    | ok s =>
      cases ho with
      | false => simp [createInstallationToken]
      | true =>
        by_cases hst : st < 200 ∨ 300 ≤ st
        · simp [createInstallationToken, hst]
          tauto
        · push_neg at hst
          cases bd with
          | none => simp [createInstallationToken, hst]
          | some p =>
            simp [createInstallationToken]
            omega

/-- Witness for the amended C3 at a concrete 500 response, with the mint
triggered by a stale cache entry (expiry 30 seconds away): the stale
credential is not returned and the cache is left unchanged, still holding
that stale entry. -/
theorem GetGitHubToken_mint_failure_witness :
    createInstallationToken envHttpFail = .error () ∧
    cacheFind [((9 : Int), ⟨"staleTok", 30⟩)] 9 = some ⟨"staleTok", 30⟩ ∧
    (30 : Int) - 0 ≤ 60 ∧
    GetGitHubToken [("k", "installation:9")] [((9 : Int), ⟨"staleTok", 30⟩)] 0
      (fun _ => createInstallationToken envHttpFail) "k" =
      ⟨"", false, [((9 : Int), ⟨"staleTok", 30⟩)], [9]⟩ :=
  ⟨rfl, by decide, by decide,
    (GetGitHubToken_mint_failure [("k", "installation:9")]
        [((9 : Int), ⟨"staleTok", 30⟩)] 0 envHttpFail "k" "installation:9" 9
        (by decide) (by decide) (by decide)
        (Or.inr ⟨⟨"staleTok", 30⟩, by decide, by decide⟩) rfl).1⟩

/-- Claim C6 counterexample: on an unparsable expiry with a decodable body
the stored expiry is now + 1 hour minus the unconditional 1-minute buffer
(now + 3540), not now + 1 hour as the claim words it. -/
theorem createInstallationToken_fallback_cex :
    envUnparsableExpiry.parseRFC3339 "not-a-timestamp" = none ∧
    createInstallationToken envUnparsableExpiry = .ok ("mintedTok", 3540) ∧
    (3540 : Int) ≠ envUnparsableExpiry.now + 3600 :=
  ⟨rfl, rfl, by decide⟩

/-- Claim C6 amended: on a successful exchange the cached expiry is the
parsed expires_at minus the 1-minute buffer; when expires_at fails to parse
but the body decodes, the mint still succeeds and the expiry falls back to
now + 1 hour before the same buffer, so now + 59 minutes is stored. -/
theorem createInstallationToken_expiry (env : MintEnv) (s : List Nat) (tok expStr : String)
    (hs : env.signResult = .ok s)
    (hhttp : env.httpOk = true)
    (hlo : 200 ≤ env.status) (hhi : env.status < 300)
    (hbody : env.body = some (tok, expStr)) :
    (∀ e, env.parseRFC3339 expStr = some e →
      createInstallationToken env = .ok (tok, e - 60) ∧
      ∀ cache id, mintPath cache (fun _ => createInstallationToken env) id =
        ⟨tok, true, cacheInsert cache id ⟨tok, e - 60⟩, [id]⟩) ∧
    (env.parseRFC3339 expStr = none →
      createInstallationToken env = .ok (tok, env.now + 3600 - 60) ∧
      ∀ cache id, mintPath cache (fun _ => createInstallationToken env) id =
        ⟨tok, true, cacheInsert cache id ⟨tok, env.now + 3600 - 60⟩, [id]⟩) := by
  have hcond : ¬ (env.status < 200 ∨ 300 ≤ env.status) := by omega
  constructor
  · intro e he
    have h1 : createInstallationToken env = .ok (tok, e - 60) := by
      simp [createInstallationToken, hs, hhttp, hcond, hbody, he]
    exact ⟨h1, fun cache id => by simp [mintPath, h1]⟩
  · intro he
    have h1 : createInstallationToken env = .ok (tok, env.now + 3600 - 60) := by
      simp [createInstallationToken, hs, hhttp, hcond, hbody, he]
    exact ⟨h1, fun cache id => by simp [mintPath, h1]⟩

/-- Witness for the amended C6 at a concrete parsed expiry. -/
theorem createInstallationToken_expiry_witness :
    createInstallationToken envParsedExpiry = .ok ("tokP", 1767225600 - 60) ∧
    mintPath [] (fun _ => createInstallationToken envParsedExpiry) 3 =
      ⟨"tokP", true, [((3 : Int), ⟨"tokP", 1767225600 - 60⟩)], [3]⟩ := by
  have h := (createInstallationToken_expiry envParsedExpiry [] "tokP"
      "2026-01-01T00:00:00Z" rfl rfl (by decide) (by decide) rfl).1
      1767225600 (by simp [envParsedExpiry])
  exact ⟨h.1, by rw [h.2 [] 3]; decide⟩

/-- Claim C5, behavior at the failing input: with GITHUB_MCP_TOKEN_MAP
unset or empty, the startup path of cmd/mini-mcp-http/main.go proceeds to
serve with an empty mapping (NewEnvTokenStoreFromEnv returns no error),
while the validation function the repository ships and property-tests for
exactly this requirement, Config.validateRequiredEnvVars, rejects the same
input with a descriptive error. -/
theorem mainLoadTokenMap_empty_env :
    mainLoadTokenMap "" (fun _ => none) = .started [] ∧
    validateRequiredEnvVars "" (fun _ => none) =
      .error "required environment variable is not set" :=
  ⟨rfl, rfl⟩

/-- Claim C10: storing a token in a context and reading it back returns
exactly that token with true, and reading from a context that holds no
token returns ("", false); both functions are total. -/
theorem context_token_roundtrip (ctx : GoContext) (t : String) :
    GitHubTokenFromContext (ContextWithGitHubToken ctx t) = (t, true) ∧
    (ctxValue ctx CtxKey.githubToken = none → GitHubTokenFromContext ctx = ("", false)) := by
  constructor
  · simp [GitHubTokenFromContext, ContextWithGitHubToken, ctxValue]
  · intro h
    simp [GitHubTokenFromContext, h]

/-- Witness for C10 at a concrete context and token. -/
theorem context_token_roundtrip_witness :
    GitHubTokenFromContext (ContextWithGitHubToken [] "tok") = ("tok", true) ∧
    ctxValue [] CtxKey.githubToken = none ∧
    GitHubTokenFromContext [] = ("", false) :=
  ⟨(context_token_roundtrip [] "tok").1, rfl, (context_token_roundtrip [] "tok").2 rfl⟩

/-- Claim C9: on POST, the handler answers missing_authorization exactly
when bearer extraction yields the empty string; a non-empty extracted token
is the one and only token passed to the store, an unmapped token answers
invalid_token and a mapped one proceeds; and extraction yields the empty
string exactly when the header is absent, does not split at a space, the
scheme word does not lowercase to "bearer", or the token is empty after
trimming white space. -/
theorem handleMcp_auth_taxonomy (auth : String) (resolve : String → Option String) :
    ((handleMcp "POST" auth resolve).1 = McpResponse.missingAuth ↔ extractBearer auth = "") ∧
    (extractBearer auth ≠ "" →
      (handleMcp "POST" auth resolve).2 = [extractBearer auth] ∧
      (resolve (extractBearer auth) = none →
        (handleMcp "POST" auth resolve).1 = McpResponse.invalidToken) ∧
      (∀ g, resolve (extractBearer auth) = some g →
        (handleMcp "POST" auth resolve).1 = McpResponse.ok g)) ∧
    (extractBearer auth = "" ↔
      auth = "" ∨ splitFirstSpace auth.data = none ∨
      (∃ sc rest, splitFirstSpace auth.data = some (sc, rest) ∧
        sc.map goToLower ≠ "bearer".data) ∨
      (∃ sc rest, splitFirstSpace auth.data = some (sc, rest) ∧
        goTrimSpace ⟨rest⟩ = "")) := by
  refine ⟨?_, ?_, ?_⟩
  · by_cases h : extractBearer auth = ""
    · simp [handleMcp, h]
    · simp only [handleMcp, if_neg (by decide : ¬ ("POST" ≠ "POST"))]
      simp only [if_neg h]
      constructor
      · intro hcon
        cases hr : resolve (extractBearer auth) with
        | none => rw [hr] at hcon; exact absurd hcon (by simp)
        | some g => rw [hr] at hcon; exact absurd hcon (by simp)
      · intro hcon
        exact absurd hcon h
  · intro h
    simp only [handleMcp, if_neg (by decide : ¬ ("POST" ≠ "POST")), if_neg h]
    refine ⟨?_, ?_, ?_⟩
    · cases hr : resolve (extractBearer auth) <;> simp [hr]
    · intro hr
      simp [hr]
    · intro g hr
      simp [hr]
  · constructor
    · intro h
      by_cases ha : auth = ""
      · exact Or.inl ha
      · cases hs : splitFirstSpace auth.data with
        | none => exact Or.inr (Or.inl rfl)
        | some p =>
          obtain ⟨sc, rest⟩ := p
          by_cases hb : sc.map goToLower = "bearer".data
          · refine Or.inr (Or.inr (Or.inr ⟨sc, rest, rfl, ?_⟩))
            have hcopy := h
            simp only [extractBearer, if_neg ha, hs, if_pos hb] at hcopy
            exact hcopy
          · exact Or.inr (Or.inr (Or.inl ⟨sc, rest, rfl, hb⟩))
    · rintro (ha | hs | ⟨sc, rest, hs, hb⟩ | ⟨sc, rest, hs, ht⟩)
      · simp [extractBearer, ha]
      · simp [extractBearer, hs]
      · by_cases ha : auth = ""
        · simp [extractBearer, ha]
        · simp [extractBearer, if_neg ha, hs, hb]
      · by_cases ha : auth = ""
        · simp [extractBearer, ha]
        · by_cases hb : sc.map goToLower = "bearer".data
          · simp [extractBearer, if_neg ha, hs, hb, ht]
          · simp [extractBearer, if_neg ha, hs, hb]

/-- Witness for C9 at a concrete mixed-case header with surrounding white
space and a store that maps the extracted token. -/
theorem handleMcp_auth_taxonomy_witness :
    extractBearer "bEaReR  tok " = "tok" ∧
    (handleMcp "POST" "bEaReR  tok " (fun s => if s = "tok" then some "gh" else none)).1 =
      McpResponse.ok "gh" ∧
    (handleMcp "POST" "bEaReR  tok " (fun s => if s = "tok" then some "gh" else none)).2 =
      ["tok"] := by
  have h := (handleMcp_auth_taxonomy "bEaReR  tok "
      (fun s => if s = "tok" then some "gh" else none)).2.1 (by decide)
  refine ⟨by decide, ?_, ?_⟩
  · have hg := h.2.2 "gh" (by decide)
    simpa using hg
  · simpa using h.1

/-- Claim C4: with the RSA-PKCS#1v1.5 signer and SHA-256 modelled as
abstract functions, a successfully signed app JWT is the header, payload
and signature segments base64url-encoded (unpadded) and joined with dots;
splitting at dots yields exactly those 3 segments; base64url-decoding the
payload segment recovers the payload JSON bytes, whose claims carry iss =
appID, iat = now and exp = now + 9 minutes, so exp - iat ≤ 10 minutes; and
the third segment is the encoded output of the signer applied to the hash
of header-dot-payload. -/
theorem createAppJWT_shape (now appID : Int) (hash : String → List Nat)
    (sign : List Nat → Except Unit (List Nat)) (sig : List Nat)
    (hs : sign (hash (b64url (strBytes jwtHeaderJson) ++ "." ++
      b64url (strBytes (payloadJsonOf (jwtClaims now appID))))) = .ok sig) :
    createAppJWT now appID hash sign = .ok
      (b64url (strBytes jwtHeaderJson) ++ "." ++
       b64url (strBytes (payloadJsonOf (jwtClaims now appID))) ++ "." ++ b64url sig) ∧
    splitDots (b64url (strBytes jwtHeaderJson) ++ "." ++
       b64url (strBytes (payloadJsonOf (jwtClaims now appID))) ++ "." ++
       b64url sig).data =
      [(b64url (strBytes jwtHeaderJson)).data,
       (b64url (strBytes (payloadJsonOf (jwtClaims now appID)))).data,
       (b64url sig).data] ∧
    (splitDots (b64url (strBytes jwtHeaderJson) ++ "." ++
       b64url (strBytes (payloadJsonOf (jwtClaims now appID))) ++ "." ++
       b64url sig).data).length = 3 ∧
    b64urlDecode (b64url (strBytes (payloadJsonOf (jwtClaims now appID)))).data =
      strBytes (payloadJsonOf (jwtClaims now appID)) ∧
    (jwtClaims now appID).iss = appID ∧
    (jwtClaims now appID).iat = now ∧
    (jwtClaims now appID).exp = now + 540 ∧
    (jwtClaims now appID).exp - (jwtClaims now appID).iat ≤ 600 := by
  have hnodot_h : ∀ c ∈ (b64url (strBytes jwtHeaderJson)).data, c ≠ '.' :=
    b64urlEncode_no_dot _
  have hnodot_p : ∀ c ∈ (b64url (strBytes (payloadJsonOf (jwtClaims now appID)))).data,
      c ≠ '.' := b64urlEncode_no_dot _
  have hnodot_s : ∀ c ∈ (b64url sig).data, c ≠ '.' := b64urlEncode_no_dot _
  have hdata : (b64url (strBytes jwtHeaderJson) ++ "." ++
      b64url (strBytes (payloadJsonOf (jwtClaims now appID))) ++ "." ++
      b64url sig).data =
      (b64url (strBytes jwtHeaderJson)).data ++ '.' ::
        ((b64url (strBytes (payloadJsonOf (jwtClaims now appID)))).data ++ '.' ::
          (b64url sig).data) := by
    simp [String.data_append]
  have hsplit : splitDots (b64url (strBytes jwtHeaderJson) ++ "." ++
      b64url (strBytes (payloadJsonOf (jwtClaims now appID))) ++ "." ++
      b64url sig).data =
      [(b64url (strBytes jwtHeaderJson)).data,
       (b64url (strBytes (payloadJsonOf (jwtClaims now appID)))).data,
       (b64url sig).data] := by
    rw [hdata, splitDots_dot_append _ _ hnodot_h, splitDots_dot_append _ _ hnodot_p,
      splitDots_no_dot _ hnodot_s]
  refine ⟨?_, hsplit, by rw [hsplit]; rfl, b64urlDecode_encode _ (ascii_payload _),
    rfl, rfl, rfl, by simp only [jwtClaims]; omega⟩
  simp [createAppJWT, hs]

/-- Witness for C4 at concrete time 0, app ID 7 and a concrete signer. -/
theorem createAppJWT_shape_witness :
    signW (hashW (b64url (strBytes jwtHeaderJson) ++ "." ++
      b64url (strBytes (payloadJsonOf (jwtClaims 0 7))))) = .ok [1, 2] ∧
    (splitDots (b64url (strBytes jwtHeaderJson) ++ "." ++
       b64url (strBytes (payloadJsonOf (jwtClaims 0 7))) ++ "." ++
       b64url [1, 2]).data).length = 3 :=
  ⟨rfl, (createAppJWT_shape 0 7 hashW signW [1, 2] rfl).2.2.1⟩

end GhMcp
